import Mathlib

/-!
Verification of the Fibonacci calculator core (`internal/fibonacci`):
shallow embedding of the Fast-Doubling engine, the Matrix-Exponentiation
engine, the calculator facade with its lookup-table fast path, and the
pooled-state reset discipline.  `math/big` integers are modelled as `Int`
(arbitrary precision, signed, exact); `uint64` quantities are modelled as
`Nat` with explicit bounds or wrap-around where Go wraps.
-/

/-- Model of Go `bits.Len64` on a value known to fit 64 bits: fuelled binary
length, `bitLenAux 64 n` is the number of bits needed to represent `n`
(`0` for `n = 0`). -/
def bitLenAux : Nat → Nat → Nat
  | 0, _ => 0
  | fuel + 1, n => if n = 0 then 0 else bitLenAux fuel (n / 2) + 1

/-- Go `bits.Len64(n)`: bit length of a `uint64`. -/
def bitsLen64 (n : Nat) : Nat := bitLenAux 64 n

/-- Model of Go `(*big.Int).BitLen()`: bit length of the absolute value,
unbounded.  Only used inside the parallel-dispatch branch condition. -/
def bigBitLen (x : Int) : Nat := x.natAbs.size

/-- Reference Fibonacci function, exactly the recurrence the specification
names: F(0)=0, F(1)=1, F(k+2)=F(k+1)+F(k). -/
def fibRef : Nat → Nat
  | 0 => 0
  | 1 => 1
  | n + 2 => fibRef (n + 1) + fibRef n

theorem fibRef_pair_eq (n : Nat) : fibRef n = Nat.fib n ∧ fibRef (n + 1) = Nat.fib (n + 1) := by
  induction n with
  | zero => exact ⟨rfl, rfl⟩
  | succ k ih =>
    refine ⟨ih.2, ?_⟩
    show fibRef (k + 2) = Nat.fib (k + 2)
    rw [fibRef, Nat.fib_add_two, ih.1, ih.2, Nat.add_comm]

theorem fibRef_eq_fib (n : Nat) : fibRef n = Nat.fib n := (fibRef_pair_eq n).1

/-- Maximum index whose Fibonacci number fits a `uint64` (source constant
`MaxFibUint64`). -/
def MaxFibUint64 : Nat := 93

/-- The running pair `(a, b)` of the `init` loop in `calculator.go`, after
`i` iterations of `a, b = b, a+b` over `uint64` arithmetic (wrap-around
modelled as `% 2^64`). -/
def fibLUTPair : Nat → Nat × Nat
  | 0 => (0, 1)
  | i + 1 =>
    let p := fibLUTPair i
    (p.2, (p.1 + p.2) % 2 ^ 64)

/-- Entry `i` of `fibLookupTable`: the value `a` stored at iteration `i` of
the `init` loop, converted to a big integer via `SetUint64`. -/
def fibLookupTable (i : Nat) : Int := ((fibLUTPair i).1 : Int)

/-- `lookupSmall(n)`: returns a fresh copy of `fibLookupTable[n]`; the copy
has the same value as the table entry. -/
def lookupSmall (n : Nat) : Int := fibLookupTable n

/-- The pooled computation state of the Fast-Doubling engine
(`calculationState` in `calculator.go`): the running pair and four scratch
temporaries, all `big.Int` values. -/
structure FDState where
  f_k : Int
  f_k1 : Int
  t1 : Int
  t2 : Int
  t3 : Int
  t4 : Int
deriving DecidableEq, Repr

/-- A freshly constructed `calculationState` (every `new(big.Int)` is zero). -/
def FDState.new : FDState := ⟨0, 0, 0, 0, 0, 0⟩

/-- `calculationState.Reset`: sets `f_k := 0`, `f_k1 := 1`; the temporaries
`t1`–`t4` are deliberately left untouched (source comment: they are always
written before being read). -/
def FDState.Reset (s : FDState) : FDState :=
  { s with f_k := 0, f_k1 := 1 }

/-- The three independent products of one doubling step
(`t3 = f_k * t2`, `t1 = f_k1 * f_k1`, `t4 = f_k * f_k`), computed either by
three joined goroutines or sequentially; both branches of the source
perform the same assignments. -/
def fdProducts (useParallel : Bool) (threshold : Nat) (f_k f_k1 t2 : Int) :
    Int × Int × Int :=
  if useParallel && decide (bigBitLen f_k1 > threshold) then
    (f_k * t2, f_k1 * f_k1, f_k * f_k)
  else
    (f_k * t2, f_k1 * f_k1, f_k * f_k)

/-- One iteration of the Fast-Doubling main loop at bit index `i`:
the doubling step (`t2 := (f_k1 << 1) - f_k`; the three products; reassembly
`f_k := t3`, `f_k1 := t1 + t4`) followed by the conditional addition step
when bit `i` of `n` is 1 (`t1 := f_k1; f_k1 := f_k1 + f_k; f_k := t1`). -/
def fdStep (useParallel : Bool) (threshold n i : Nat) (s : FDState) : FDState :=
  let t2 := 2 * s.f_k1 - s.f_k
  let prods := fdProducts useParallel threshold s.f_k s.f_k1 t2
  let t3 := prods.1
  let t1 := prods.2.1
  let t4 := prods.2.2
  let s1 : FDState := { f_k := t3, f_k1 := t1 + t4, t1 := t1, t2 := t2, t3 := t3, t4 := t4 }
  if (n >>> i) &&& 1 = 1 then
    { s1 with f_k := s1.f_k1, f_k1 := s1.f_k1 + s1.f_k, t1 := s1.f_k1 }
  else
    s1

/-- The Fast-Doubling main loop, iterating bit indices from `numBits - 1`
down to `0` (the first argument is the number of remaining iterations;
the current bit index is `remaining - 1`).  Each iteration first polls the
cancellation token; on cancellation it returns `none` immediately.  The
second component counts the iterations that completed. -/
def fdLoop (cancelled useParallel : Bool) (threshold n : Nat) :
    Nat → FDState → Option FDState × Nat
  | 0, s => (some s, 0)
  | r + 1, s =>
    if cancelled then (none, 0)
    else
      let s1 := fdStep useParallel threshold n r s
      let rec1 := fdLoop cancelled useParallel threshold n r s1
      (rec1.1, rec1.2 + 1)

/-- Observable outcome of one engine `CalculateCore` call: the returned
big-integer copy (`none` models the `(nil, err)` cancellation return), the
number of completed loop iterations, and whether pooled state was acquired
(and, by the deferred release, returned to the pool). -/
structure CoreOut where
  result : Option Int
  iters : Nat
  poolAcquired : Bool
deriving DecidableEq, Repr

/-- `OptimizedFastDoubling.CalculateCore` (`fastdoubling.go`): acquires a
pooled state unconditionally, resets it, runs the MSB→LSB doubling loop over
the bits of `n`, and returns a copy of `f_k` (or the cancellation error).
`dirty` is the arbitrary prior content of the pooled object;
`cancelled` models `ctx.Err() != nil`; `useParallel` models
`runtime.NumCPU() > 1`. -/
def OptimizedFastDoubling.CalculateCore (cancelled useParallel : Bool)
    (threshold n : Nat) (dirty : FDState) : CoreOut :=
  let s := FDState.Reset dirty
  let numBits := bitsLen64 n
  let out := fdLoop cancelled useParallel threshold n numBits s
  { result := out.1.map (fun sF => sF.f_k), iters := out.2, poolAcquired := true }

/-- A 2×2 matrix of big integers (source struct `matrix` with fields
`a, b, c, d`). -/
structure GMatrix where
  a : Int
  b : Int
  c : Int
  d : Int
deriving DecidableEq, Repr

/-- A freshly constructed matrix (`newMatrix`: four `new(big.Int)`, all zero). -/
def GMatrix.new : GMatrix := ⟨0, 0, 0, 0⟩

/-- `matrix.SetIdentity`. -/
def GMatrix.identityM : GMatrix := ⟨1, 0, 0, 1⟩

/-- `matrix.SetBaseQ`: the Fibonacci transition matrix Q = [[1,1],[1,0]]. -/
def GMatrix.baseQ : GMatrix := ⟨1, 1, 1, 0⟩

/-- The true mathematical product of two 2×2 matrices, written from the
specification's formula (§4.4.1); the comparator for the refinement claims,
not a transcription of source code. -/
def matProdSpec (m1 m2 : GMatrix) : GMatrix :=
  ⟨m1.a * m2.a + m1.b * m2.c, m1.a * m2.b + m1.b * m2.d,
   m1.c * m2.a + m1.d * m2.c, m1.c * m2.b + m1.d * m2.d⟩

/-- Scratch values `t1`–`t5` written by `squareSymmetricMatrix`
(`t1 = a²`, `t2 = b²`, `t3 = d²`, `t4 = b·(a+d)`, `t5 = a+d`). -/
structure SqScratch where
  t1 : Int
  t2 : Int
  t3 : Int
  t4 : Int
  t5 : Int
deriving DecidableEq, Repr

/-- The four products of `squareSymmetricMatrix`, computed either by four
joined goroutines or sequentially; both branches of the source perform the
same assignments. -/
def sqProducts (m : GMatrix) (aPlusD : Int) (useParallel : Bool) (threshold : Nat) :
    SqScratch :=
  if useParallel && decide (bigBitLen m.a > threshold) then
    ⟨m.a * m.a, m.b * m.b, m.d * m.d, m.b * aPlusD, aPlusD⟩
  else
    ⟨m.a * m.a, m.b * m.b, m.d * m.d, m.b * aPlusD, aPlusD⟩

/-- `squareSymmetricMatrix(dest, mat, state, useParallel, threshold)`
(`matrix.go`): computes `t5 := a+d`, the four products `a²,b²,d²,b·(a+d)`,
then assembles `dest = [[t1+t2, t4],[t4, t2+t3]]`.  Returns the value written
to `dest` together with the scratch values written into the state. -/
def squareSymmetricMatrix (m : GMatrix) (useParallel : Bool) (threshold : Nat) :
    GMatrix × SqScratch :=
  let sc := sqProducts m (m.a + m.d) useParallel threshold
  (⟨sc.t1 + sc.t2, sc.t4, sc.t4, sc.t2 + sc.t3⟩, sc)

/-- Scratch values `t1`–`t8` written by `multiplyMatrices`. -/
structure MulScratch where
  t1 : Int
  t2 : Int
  t3 : Int
  t4 : Int
  t5 : Int
  t6 : Int
  t7 : Int
  t8 : Int
deriving DecidableEq, Repr

/-- The eight products of `multiplyMatrices`, computed either by eight
joined goroutines or sequentially; both branches of the source perform the
same assignments. -/
def mulProducts (m1 m2 : GMatrix) (useParallel : Bool) (threshold : Nat) :
    MulScratch :=
  if useParallel && decide (bigBitLen m1.a > threshold) then
    ⟨m1.a * m2.a, m1.b * m2.c, m1.a * m2.b, m1.b * m2.d,
     m1.c * m2.a, m1.d * m2.c, m1.c * m2.b, m1.d * m2.d⟩
  else
    ⟨m1.a * m2.a, m1.b * m2.c, m1.a * m2.b, m1.b * m2.d,
     m1.c * m2.a, m1.d * m2.c, m1.c * m2.b, m1.d * m2.d⟩

/-- `multiplyMatrices(dest, m1, m2, state, useParallel, threshold)`
(`matrix.go`): the eight products into `t1`–`t8`, then
`dest.a = t1+t2; dest.b = t3+t4; dest.c = t5+t6; dest.d = t7+t8`. -/
def multiplyMatrices (m1 m2 : GMatrix) (useParallel : Bool) (threshold : Nat) :
    GMatrix × MulScratch :=
  let sc := mulProducts m1 m2 useParallel threshold
  (⟨sc.t1 + sc.t2, sc.t3 + sc.t4, sc.t5 + sc.t6, sc.t7 + sc.t8⟩, sc)

/-- The pooled state of the Matrix-Exponentiation engine (`matrixState`):
three matrices and eight scratch integers.  `res`, `p` and `temp` hold the
values of the local aliases `resultMatrix`, `powerMatrix` and `tempMatrix`
(pointer swapping exchanges which storage they name; the observable values
are what this model tracks). -/
structure MatState where
  res : GMatrix
  p : GMatrix
  temp : GMatrix
  t1 : Int
  t2 : Int
  t3 : Int
  t4 : Int
  t5 : Int
  t6 : Int
  t7 : Int
  t8 : Int
deriving DecidableEq, Repr

/-- A freshly constructed `matrixState` (all big integers zero). -/
def MatState.new : MatState := ⟨GMatrix.new, GMatrix.new, GMatrix.new, 0, 0, 0, 0, 0, 0, 0, 0⟩

/-- `matrixState.Reset`: `res := Identity`, `p := Q`; `tempMatrix` and the
scratch integers `t1`–`t8` are left untouched. -/
def MatState.Reset (s : MatState) : MatState :=
  { s with res := GMatrix.identityM, p := GMatrix.baseQ }

/-- The conditional-multiplication step of the loop:
`multiplyMatrices(tempMatrix, resultMatrix, powerMatrix, ...)` followed by
the pointer swap `resultMatrix, tempMatrix = tempMatrix, resultMatrix`. -/
def matMulIter (useParallel : Bool) (threshold : Nat) (st : MatState) : MatState :=
  let out := multiplyMatrices st.res st.p useParallel threshold
  { st with
    res := out.1, temp := st.res,
    t1 := out.2.t1, t2 := out.2.t2, t3 := out.2.t3, t4 := out.2.t4,
    t5 := out.2.t5, t6 := out.2.t6, t7 := out.2.t7, t8 := out.2.t8 }

/-- The squaring step of the loop:
`squareSymmetricMatrix(tempMatrix, powerMatrix, ...)` followed by the pointer
swap `powerMatrix, tempMatrix = tempMatrix, powerMatrix`. -/
def matSqIter (useParallel : Bool) (threshold : Nat) (st : MatState) : MatState :=
  let out := squareSymmetricMatrix st.p useParallel threshold
  { st with
    p := out.1, temp := st.p,
    t1 := out.2.t1, t2 := out.2.t2, t3 := out.2.t3, t4 := out.2.t4,
    t5 := out.2.t5 }

/-- One iteration of the matrix-exponentiation loop at bit index `i`:
if bit `i` of the exponent `k` is 1, multiply the accumulator by the power
matrix; then, unless this is the last iteration (`i < numBits - 1` fails),
square the power matrix. -/
def matStep (useParallel : Bool) (threshold k numBits i : Nat) (st : MatState) : MatState :=
  let st1 := if (k >>> i) &&& 1 = 1 then matMulIter useParallel threshold st else st
  if i < numBits - 1 then matSqIter useParallel threshold st1 else st1

/-- The matrix-exponentiation main loop, iterating bit index `i` upward from
`0` while `remaining` (first `Nat` argument) counts down from `numBits`.
Each iteration first polls the cancellation token.  The second component of
the result counts the iterations that completed. -/
def matLoop (cancelled useParallel : Bool) (threshold k numBits : Nat) :
    Nat → Nat → MatState → Option MatState × Nat
  | 0, _, st => (some st, 0)
  | r + 1, i, st =>
    if cancelled then (none, 0)
    else
      let st1 := matStep useParallel threshold k numBits i st
      let rec1 := matLoop cancelled useParallel threshold k numBits r (i + 1) st1
      (rec1.1, rec1.2 + 1)

/-- `MatrixExponentiation.CalculateCore` (`matrix.go`): `n = 0` returns the
constant 0 without touching the pool; otherwise it acquires and resets a
pooled state, runs the LSB→MSB binary-exponentiation loop over the bits of
the exponent `k = n - 1`, and returns a copy of `resultMatrix.a` (or the
cancellation error). -/
def MatrixExponentiation.CalculateCore (cancelled useParallel : Bool)
    (threshold n : Nat) (dirty : MatState) : CoreOut :=
  if n = 0 then
    { result := some 0, iters := 0, poolAcquired := false }
  else
    let st := MatState.Reset dirty
    let k := n - 1
    let numBits := bitsLen64 k
    let out := matLoop cancelled useParallel threshold k numBits numBits 0 st
    { result := out.1.map (fun stF => stF.res.a), iters := out.2, poolAcquired := true }

/-- The clamping performed by the facade's `reporter` closure before the
non-blocking channel send: values above 1.0 are capped at 1.0.  Progress
values are modelled as exact rationals; the only value the facade itself
ever reports is the literal constant 1.0, which involves no floating-point
arithmetic. -/
def reporterClamp (q : Rat) : Rat := if q > 1 then 1 else q

/-- Observable outcome of one `FibCalculator.Calculate` call: the returned
value (`none` models the `(nil, err)` cancellation return — cancellation is
the only error the core can produce), the progress values the facade's own
reporter passed to the channel send, and whether the wrapped core engine's
`CalculateCore` was invoked. -/
structure CalcOut where
  result : Option Int
  reports : List Rat
  coreCalled : Bool
deriving DecidableEq, Repr

/-- `FibCalculator.Calculate` (`calculator.go`): if `n ≤ MaxFibUint64`,
report progress 1.0 and return `lookupSmall n` with a nil error, without
invoking the core; otherwise delegate to the wrapped core and, on success
(`err == nil && result != nil`), report 1.0 as a safety net.  The core is
passed as a thunk; `coreCalled` records whether the slow path ran it. -/
def FibCalculator.Calculate (core : Unit → CoreOut) (n : Nat) : CalcOut :=
  if n ≤ MaxFibUint64 then
    { result := some (lookupSmall n), reports := [reporterClamp 1], coreCalled := false }
  else
    let out := core ()
    { result := out.result,
      reports := if out.result.isSome then [reporterClamp 1] else [],
      coreCalled := true }

/-- `acquireState` = `acquireFromPool(statePool)`: `pool.Get()` yields either
a previously released object with arbitrary prior contents (`some dirty`) or
a freshly constructed one (`none`, when the underlying pool is empty), and
the acquired object is then `Reset`. -/
def acquireState (poolItem : Option FDState) : FDState :=
  (match poolItem with
    | some dirty => dirty
    | none => FDState.new).Reset

/-- `acquireMatrixState` = `acquireFromPool(matrixStatePool)`: same
discipline for the matrix-exponentiation state. -/
def acquireMatrixState (poolItem : Option MatState) : MatState :=
  (match poolItem with
    | some dirty => dirty
    | none => MatState.new).Reset

/-- A heap of big-integer cells, addressed by index, for stating the
aliasing discipline of the lookup table: `mem[0..93]` are the cells of
`fibLookupTable`; `new(big.Int)` allocates a fresh cell at the end. -/
structure Store where
  mem : List Int
deriving DecidableEq, Repr

/-- Allocate a fresh `big.Int` cell holding `v`; its address is distinct
from every existing cell. -/
def Store.alloc (st : Store) (v : Int) : Nat × Store :=
  (st.mem.length, ⟨st.mem ++ [v]⟩)

/-- Read the cell at address `a`. -/
def Store.read (st : Store) (a : Nat) : Int := st.mem.getD a 0

/-- Mutate the cell at address `a` (a caller writing through the returned
`*big.Int`). -/
def Store.write (st : Store) (a : Nat) (v : Int) : Store := ⟨st.mem.set a v⟩

/-- The address of the table cell `fibLookupTable[n]`. -/
def tableAddr (n : Nat) : Nat := n

/-- The store as `init` leaves it: cells `0..93` hold the table values. -/
def initialStore : Store := ⟨(List.range (MaxFibUint64 + 1)).map fibLookupTable⟩

/-- `lookupSmall` over the store: `new(big.Int).Set(fibLookupTable[n])` —
allocate a fresh cell and copy the table value into it; the caller receives
the fresh address, never the table's own cell. -/
def lookupSmallAlloc (st : Store) (n : Nat) : Nat × Store :=
  st.alloc (st.read (tableAddr n))

theorem lt_two_pow_bitLenAux (fuel : Nat) : ∀ n : Nat, n < 2 ^ fuel → n < 2 ^ bitLenAux fuel n := by
  induction fuel with
  | zero => intro n h; simpa [bitLenAux] using h
  | succ fuel ih =>
    intro n h
    unfold bitLenAux
    by_cases h0 : n = 0
    · simp [h0]
    · have hdiv : n / 2 < 2 ^ fuel := by
        have hp : (2 : Nat) ^ (fuel + 1) = 2 ^ fuel * 2 := by rw [pow_succ]
        omega
      have hb := ih (n / 2) hdiv
      simp only [h0, if_false]
      have hp : (2 : Nat) ^ (bitLenAux fuel (n / 2) + 1) = 2 ^ bitLenAux fuel (n / 2) * 2 := by
        rw [pow_succ]
      omega

theorem shiftRight_bitsLen64_eq_zero (n : Nat) (hn : n < 2 ^ 64) : n >>> bitsLen64 n = 0 := by
  rw [Nat.shiftRight_eq_div_pow]
  exact Nat.div_eq_of_lt (lt_two_pow_bitLenAux 64 n hn)

theorem bitsLen64_pos (n : Nat) (hn : n ≠ 0) : 0 < bitsLen64 n := by
  show 0 < bitLenAux 64 n
  unfold bitLenAux
  simp [hn]

theorem fib_two_mul_cast (m : Nat) :
    (Nat.fib (2 * m) : Int) =
      (Nat.fib m : Int) * (2 * (Nat.fib (m + 1) : Int) - (Nat.fib m : Int)) := by
  have h : Nat.fib m ≤ 2 * Nat.fib (m + 1) :=
    le_trans Nat.fib_le_fib_succ (by omega)
  rw [Nat.fib_two_mul]
  push_cast [h]
  ring

theorem fib_two_mul_add_one_cast (m : Nat) :
    (Nat.fib (2 * m + 1) : Int) =
      (Nat.fib (m + 1) : Int) * (Nat.fib (m + 1) : Int) +
        (Nat.fib m : Int) * (Nat.fib m : Int) := by
  rw [Nat.fib_two_mul_add_one]
  push_cast
  ring

theorem fib_add_two_cast (m : Nat) :
    (Nat.fib (m + 2) : Int) = (Nat.fib m : Int) + (Nat.fib (m + 1) : Int) := by
  rw [Nat.fib_add_two]
  push_cast
  ring

theorem fdProducts_eq (u : Bool) (t : Nat) (a b c : Int) :
    fdProducts u t a b c = (a * c, b * b, a * a) := by
  unfold fdProducts
  split <;> rfl

theorem fdStep_fib (useParallel : Bool) (threshold n i : Nat) (s : FDState) (m : Nat)
    (hk : s.f_k = (Nat.fib m : Int)) (hk1 : s.f_k1 = (Nat.fib (m + 1) : Int)) :
    (fdStep useParallel threshold n i s).f_k = (Nat.fib (2 * m + (n >>> i) % 2) : Int) ∧
    (fdStep useParallel threshold n i s).f_k1 = (Nat.fib (2 * m + (n >>> i) % 2 + 1) : Int) := by
  have hdbl : (Nat.fib m : Int) * (2 * (Nat.fib (m + 1) : Int) - (Nat.fib m : Int)) =
      (Nat.fib (2 * m) : Int) := (fib_two_mul_cast m).symm
  have hsq : (Nat.fib (m + 1) : Int) * (Nat.fib (m + 1) : Int) +
      (Nat.fib m : Int) * (Nat.fib m : Int) = (Nat.fib (2 * m + 1) : Int) :=
    (fib_two_mul_add_one_cast m).symm
  simp only [fdStep, fdProducts_eq, Nat.and_one_is_mod, hk, hk1]
  by_cases hbit : (n >>> i) % 2 = 1
  · simp only [hbit, if_true]
    constructor
    · exact hsq
    · show (Nat.fib (m+1) : Int) * (Nat.fib (m+1) : Int) + (Nat.fib m : Int) * (Nat.fib m : Int) +
          (Nat.fib m : Int) * (2 * (Nat.fib (m + 1) : Int) - (Nat.fib m : Int)) =
          (Nat.fib (2 * m + 1 + 1) : Int)
      rw [hsq, hdbl, show 2 * m + 1 + 1 = 2 * m + 2 from rfl, fib_add_two_cast]
      ring
  · have hb0 : (n >>> i) % 2 = 0 := by omega
    simp only [hb0, Nat.add_zero]
    refine ⟨?_, ?_⟩ <;> rw [if_neg (by decide : ¬((0 : Nat) = 1))]
    · exact hdbl
    · exact hsq

theorem fdLoop_fib (useParallel : Bool) (threshold n : Nat) :
    ∀ (r : Nat) (s : FDState),
      s.f_k = (Nat.fib (n >>> r) : Int) → s.f_k1 = (Nat.fib (n >>> r + 1) : Int) →
      ∃ sF, fdLoop false useParallel threshold n r s = (some sF, r) ∧
        sF.f_k = (Nat.fib n : Int) ∧ sF.f_k1 = (Nat.fib (n + 1) : Int) := by
  intro r
  induction r with
  | zero =>
    intro s h1 h2
    exact ⟨s, rfl, by simpa using h1, by simpa using h2⟩
  | succ r ih =>
    intro s h1 h2
    have hstep := fdStep_fib useParallel threshold n r s (n >>> (r + 1)) h1 h2
    have hsplit : 2 * (n >>> (r + 1)) + (n >>> r) % 2 = n >>> r := by
      rw [Nat.shiftRight_succ]
      omega
    rw [hsplit] at hstep
    obtain ⟨sF, hloop, hfk, hfk1⟩ := ih (fdStep useParallel threshold n r s) hstep.1 hstep.2
    refine ⟨sF, ?_, hfk, hfk1⟩
    simp only [fdLoop, Bool.false_eq_true, if_false, hloop]

theorem fastDoublingCore_fib (useParallel : Bool) (threshold n : Nat) (dirty : FDState)
    (hn : n < 2 ^ 64) :
    OptimizedFastDoubling.CalculateCore false useParallel threshold n dirty =
      { result := some (Nat.fib n : Int), iters := bitsLen64 n, poolAcquired := true } := by
  have hz := shiftRight_bitsLen64_eq_zero n hn
  have h1 : (FDState.Reset dirty).f_k = (Nat.fib (n >>> bitsLen64 n) : Int) := by
    rw [hz]; rfl
  have h2 : (FDState.Reset dirty).f_k1 = (Nat.fib (n >>> bitsLen64 n + 1) : Int) := by
    rw [hz]; rfl
  obtain ⟨sF, hloop, hfk, _⟩ :=
    fdLoop_fib useParallel threshold n (bitsLen64 n) (FDState.Reset dirty) h1 h2
  simp only [OptimizedFastDoubling.CalculateCore, hloop, Option.map_some', hfk]

theorem fastDoublingCore_cancelled (useParallel : Bool) (threshold n : Nat) (dirty : FDState)
    (hn : n ≠ 0) :
    OptimizedFastDoubling.CalculateCore true useParallel threshold n dirty =
      { result := none, iters := 0, poolAcquired := true } := by
  obtain ⟨r, hr⟩ : ∃ r, bitsLen64 n = r + 1 := by
    have := bitsLen64_pos n hn
    exact ⟨bitsLen64 n - 1, by omega⟩
  simp only [OptimizedFastDoubling.CalculateCore, hr, fdLoop, if_true, Option.map_none']

/-- The mathematical j-th power of the transition matrix Q, defined through
the true matrix product; the reference object of the loop invariant. -/
def qmatPow : Nat → GMatrix
  | 0 => GMatrix.identityM
  | j + 1 => matProdSpec (qmatPow j) GMatrix.baseQ

theorem qmatPow_succ_entries (j : Nat) :
    qmatPow (j + 1) =
      ⟨(Nat.fib (j + 2) : Int), (Nat.fib (j + 1) : Int),
       (Nat.fib (j + 1) : Int), (Nat.fib j : Int)⟩ := by
  induction j with
  | zero =>
    show matProdSpec GMatrix.identityM GMatrix.baseQ = _
    simp only [matProdSpec, GMatrix.identityM, GMatrix.baseQ, GMatrix.mk.injEq]
    norm_num
  | succ j ih =>
    show matProdSpec (qmatPow (j + 1)) GMatrix.baseQ = _
    rw [ih]
    simp only [matProdSpec, GMatrix.baseQ, GMatrix.mk.injEq]
    refine ⟨?_, ?_, ?_, ?_⟩
    · rw [show j + 1 + 2 = j + 1 + 1 + 1 from rfl, fib_add_two_cast (j + 1)]
      ring
    · ring
    · rw [fib_add_two_cast j]
      ring
    · ring

theorem qmatPow_one : qmatPow 1 = GMatrix.baseQ := by
  rw [qmatPow_succ_entries 0]
  simp only [GMatrix.baseQ, GMatrix.mk.injEq]
  norm_num

theorem qmatPow_symm (j : Nat) : (qmatPow j).b = (qmatPow j).c := by
  cases j with
  | zero => rfl
  | succ j => rw [qmatPow_succ_entries]

theorem qmatPow_a (j : Nat) : (qmatPow j).a = (Nat.fib (j + 1) : Int) := by
  cases j with
  | zero => simp [qmatPow, GMatrix.identityM]
  | succ j => rw [qmatPow_succ_entries]

theorem qmatPow_add (x y : Nat) : matProdSpec (qmatPow x) (qmatPow y) = qmatPow (x + y) := by
  cases x with
  | zero =>
    show matProdSpec GMatrix.identityM (qmatPow y) = qmatPow (0 + y)
    rw [Nat.zero_add]
    simp only [matProdSpec, GMatrix.identityM]
    cases hy : qmatPow y
    simp only [GMatrix.mk.injEq]
    refine ⟨by ring, by ring, by ring, by ring⟩
  | succ x =>
    cases y with
    | zero =>
      show matProdSpec (qmatPow (x + 1)) GMatrix.identityM = qmatPow (x + 1 + 0)
      rw [Nat.add_zero]
      cases hx : qmatPow (x + 1)
      simp only [matProdSpec, GMatrix.identityM, GMatrix.mk.injEq]
      refine ⟨by ring, by ring, by ring, by ring⟩
    | succ y =>
      rw [qmatPow_succ_entries x, qmatPow_succ_entries y,
        show x + 1 + (y + 1) = x + y + 1 + 1 from by omega, qmatPow_succ_entries (x + y + 1)]
      simp only [matProdSpec, GMatrix.mk.injEq]
      refine ⟨?_, ?_, ?_, ?_⟩
      · have h := Nat.fib_add (x + 1) (y + 1)
        rw [show x + y + 1 + 2 = x + 1 + (y + 1) + 1 from by omega]
        rw [h]
        push_cast
        ring
      · have h := Nat.fib_add (x + 1) y
        rw [show x + y + 1 + 1 = x + 1 + y + 1 from by omega]
        rw [h]
        push_cast
        ring
      · have h := Nat.fib_add x (y + 1)
        rw [show x + y + 1 + 1 = x + (y + 1) + 1 from by omega]
        rw [h]
        push_cast
        ring
      · have h := Nat.fib_add x y
        rw [show x + y + 1 = x + y + 1 from rfl]
        rw [show x + y + 1 = x + y + 1 from rfl, h]
        push_cast
        ring

theorem sqProducts_eq (m : GMatrix) (x : Int) (u : Bool) (t : Nat) :
    sqProducts m x u t = ⟨m.a * m.a, m.b * m.b, m.d * m.d, m.b * x, x⟩ := by
  unfold sqProducts
  split <;> rfl

theorem mulProducts_eq (m1 m2 : GMatrix) (u : Bool) (t : Nat) :
    mulProducts m1 m2 u t =
      ⟨m1.a * m2.a, m1.b * m2.c, m1.a * m2.b, m1.b * m2.d,
       m1.c * m2.a, m1.d * m2.c, m1.c * m2.b, m1.d * m2.d⟩ := by
  unfold mulProducts
  split <;> rfl

theorem multiplyMatrices_eq_matProdSpec (m1 m2 : GMatrix) (u : Bool) (t : Nat) :
    (multiplyMatrices m1 m2 u t).1 = matProdSpec m1 m2 := by
  simp only [multiplyMatrices, mulProducts_eq, matProdSpec]

theorem squareSymmetricMatrix_eq_matProdSpec (m : GMatrix) (u : Bool) (t : Nat)
    (hsym : m.b = m.c) :
    (squareSymmetricMatrix m u t).1 = matProdSpec m m := by
  simp only [squareSymmetricMatrix, sqProducts_eq, matProdSpec, GMatrix.mk.injEq]
  rw [← hsym]
  refine ⟨by ring, by ring, by ring, by ring⟩

theorem matStep_inv (useParallel : Bool) (threshold k numBits i : Nat) (st : MatState) (m : Nat)
    (hres : st.res = qmatPow m) (hp : st.p = qmatPow (2 ^ i)) :
    (matStep useParallel threshold k numBits i st).res =
      qmatPow (m + ((k >>> i) % 2) * 2 ^ i) ∧
    (i < numBits - 1 →
      (matStep useParallel threshold k numBits i st).p = qmatPow (2 ^ (i + 1))) ∧
    (¬ i < numBits - 1 →
      (matStep useParallel threshold k numBits i st).p = qmatPow (2 ^ i)) := by
  have hmul1 : (matMulIter useParallel threshold st).res = qmatPow (m + 2 ^ i) := by
    simp only [matMulIter, multiplyMatrices_eq_matProdSpec, hres, hp, qmatPow_add]
  have hmulp : (matMulIter useParallel threshold st).p = st.p := rfl
  have hres1 : ∀ st1 : MatState, st1.res = qmatPow (m + ((k >>> i) % 2) * 2 ^ i) →
      st1.p = qmatPow (2 ^ i) →
      (if i < numBits - 1 then matSqIter useParallel threshold st1 else st1).res =
        qmatPow (m + ((k >>> i) % 2) * 2 ^ i) ∧
      (i < numBits - 1 →
        (if i < numBits - 1 then matSqIter useParallel threshold st1 else st1).p =
          qmatPow (2 ^ (i + 1))) ∧
      (¬ i < numBits - 1 →
        (if i < numBits - 1 then matSqIter useParallel threshold st1 else st1).p =
          qmatPow (2 ^ i)) := by
    intro st1 h1 h2
    by_cases hlast : i < numBits - 1
    · rw [if_pos hlast]
      refine ⟨h1, fun _ => ?_, fun hc => absurd hlast hc⟩
      have hsq : (matSqIter useParallel threshold st1).p = matProdSpec st1.p st1.p := by
        simp only [matSqIter]
        exact squareSymmetricMatrix_eq_matProdSpec st1.p useParallel threshold
          (by rw [h2]; exact qmatPow_symm (2 ^ i))
      rw [hsq, h2, qmatPow_add, ← Nat.two_mul, ← Nat.pow_succ']
    · rw [if_neg hlast]
      exact ⟨h1, fun hc => absurd hc hlast, fun _ => h2⟩
  unfold matStep
  by_cases hbit : (k >>> i) &&& 1 = 1
  · have hb1 : (k >>> i) % 2 = 1 := by rw [← Nat.and_one_is_mod]; exact hbit
    simp only [hbit, if_true]
    exact hres1 (matMulIter useParallel threshold st)
      (by rw [hmul1, hb1, Nat.one_mul]) (by rw [hmulp, hp])
  · have hb0 : (k >>> i) % 2 = 0 := by
      have := Nat.and_one_is_mod (k >>> i)
      omega
    simp only [hbit, if_false]
    exact hres1 st (by rw [hres, hb0, Nat.zero_mul, Nat.add_zero]) hp

theorem matLoop_fib (useParallel : Bool) (threshold k numBits : Nat) :
    ∀ (r i : Nat) (st : MatState) (m : Nat),
      i + r = numBits →
      k >>> (i + r) = 0 →
      st.res = qmatPow m →
      (1 ≤ r → st.p = qmatPow (2 ^ i)) →
      ∃ stF, matLoop false useParallel threshold k numBits r i st = (some stF, r) ∧
        stF.res = qmatPow (m + (k >>> i) * 2 ^ i) := by
  intro r
  induction r with
  | zero =>
    intro i st m hsum hz hres hp
    rw [Nat.add_zero] at hz
    exact ⟨st, rfl, by rw [hres, hz, Nat.zero_mul, Nat.add_zero]⟩
  | succ r ih =>
    intro i st m hsum hz hres hp
    have hp1 := hp (by omega)
    have hstep := matStep_inv useParallel threshold k numBits i st m hres hp1
    have hq : k >>> i = 2 * (k >>> (i + 1)) + (k >>> i) % 2 := by
      rw [Nat.shiftRight_succ]
      omega
    have harith : m + (k >>> i) % 2 * 2 ^ i + k >>> (i + 1) * 2 ^ (i + 1) =
        m + (k >>> i) * 2 ^ i := by
      conv_rhs => rw [hq]
      rw [Nat.pow_succ]
      ring
    have hpnext : 1 ≤ r → (matStep useParallel threshold k numBits i st).p =
        qmatPow (2 ^ (i + 1)) := by
      intro hr
      exact hstep.2.1 (by omega)
    obtain ⟨stF, hloop, hresF⟩ :=
      ih (i + 1) (matStep useParallel threshold k numBits i st)
        (m + (k >>> i) % 2 * 2 ^ i)
        (by omega)
        (by rw [show i + 1 + r = i + (r + 1) from by omega]; exact hz)
        hstep.1 hpnext
    refine ⟨stF, ?_, by rw [hresF, harith]⟩
    simp only [matLoop, Bool.false_eq_true, if_false, hloop]

theorem matrixCore_fib (useParallel : Bool) (threshold n : Nat) (dirty : MatState)
    (hn : n < 2 ^ 64) :
    (MatrixExponentiation.CalculateCore false useParallel threshold n dirty).result =
      some (Nat.fib n : Int) := by
  by_cases h0 : n = 0
  · subst h0
    rfl
  · have hk : n - 1 < 2 ^ 64 := by omega
    have hz := shiftRight_bitsLen64_eq_zero (n - 1) hk
    obtain ⟨stF, hloop, hresF⟩ :=
      matLoop_fib useParallel threshold (n - 1) (bitsLen64 (n - 1))
        (bitsLen64 (n - 1)) 0 (MatState.Reset dirty) 0
        (Nat.zero_add _)
        (by rw [Nat.zero_add]; exact hz)
        rfl
        (fun _ => by
          show GMatrix.baseQ = qmatPow (2 ^ 0)
          rw [Nat.pow_zero, qmatPow_one])
    simp only [MatrixExponentiation.CalculateCore, h0, if_false, hloop,
      Option.map_some']
    rw [hresF, Nat.zero_add, Nat.shiftRight_zero, Nat.pow_zero, Nat.mul_one,
      qmatPow_a, Nat.sub_add_cancel (by omega : 1 ≤ n)]

theorem matrixCore_cancelled (useParallel : Bool) (threshold n : Nat) (dirty : MatState)
    (hn : 1 < n) :
    MatrixExponentiation.CalculateCore true useParallel threshold n dirty =
      { result := none, iters := 0, poolAcquired := true } := by
  have h0 : ¬ n = 0 := by omega
  obtain ⟨r, hr⟩ : ∃ r, bitsLen64 (n - 1) = r + 1 := by
    have := bitsLen64_pos (n - 1) (by omega)
    exact ⟨bitsLen64 (n - 1) - 1, by omega⟩
  simp only [MatrixExponentiation.CalculateCore, h0, if_false, hr, matLoop, if_true,
    Option.map_none']

theorem fibLookupTable_correct : ∀ n, n ≤ 93 → fibLookupTable n = (Nat.fib n : Int) := by
  decide

/-- C1: for every uint64 `n`, every threshold, and an un-triggered
cancellation token, `OptimizedFastDoubling.CalculateCore` and
`MatrixExponentiation.CalculateCore` both return exactly the n-th Fibonacci
number of the reference recurrence, and the result does not depend on the
threshold (nor on the parallel/sequential path or the pooled object's prior
contents). -/
theorem c1_engines_equiv_fibRef (n threshold threshold2 : Nat)
    (useParallel useParallel2 : Bool) (dF dF2 : FDState) (dM dM2 : MatState)
    (hn : n < 2 ^ 64) :
    (OptimizedFastDoubling.CalculateCore false useParallel threshold n dF).result =
      some (fibRef n : Int) ∧
    (MatrixExponentiation.CalculateCore false useParallel threshold n dM).result =
      some (fibRef n : Int) ∧
    (OptimizedFastDoubling.CalculateCore false useParallel threshold n dF).result =
      (OptimizedFastDoubling.CalculateCore false useParallel2 threshold2 n dF2).result ∧
    (MatrixExponentiation.CalculateCore false useParallel threshold n dM).result =
      (MatrixExponentiation.CalculateCore false useParallel2 threshold2 n dM2).result := by
  have h1 := fastDoublingCore_fib useParallel threshold n dF hn
  have h1b := fastDoublingCore_fib useParallel2 threshold2 n dF2 hn
  have h2 := matrixCore_fib useParallel threshold n dM hn
  have h2b := matrixCore_fib useParallel2 threshold2 n dM2 hn
  rw [fibRef_eq_fib]
  exact ⟨by rw [h1], h2, by rw [h1, h1b], by rw [h2, h2b]⟩

/-- Witness for C1 at n = 10: both engines return F(10). -/
theorem c1_engines_equiv_fibRef_witness :
    (10 : Nat) < 2 ^ 64 ∧
    ((OptimizedFastDoubling.CalculateCore false true 0 10 FDState.new).result =
        some (fibRef 10 : Int) ∧
      (MatrixExponentiation.CalculateCore false true 0 10 MatState.new).result =
        some (fibRef 10 : Int) ∧
      (OptimizedFastDoubling.CalculateCore false true 0 10 FDState.new).result =
        (OptimizedFastDoubling.CalculateCore false false 4096 10 FDState.new).result ∧
      (MatrixExponentiation.CalculateCore false true 0 10 MatState.new).result =
        (MatrixExponentiation.CalculateCore false false 4096 10 MatState.new).result) :=
  ⟨by decide,
    c1_engines_equiv_fibRef 10 0 4096 true false FDState.new FDState.new
      MatState.new MatState.new (by decide)⟩

/-- C2: for `n ≤ 93` the facade answers from the lookup table with a nil
error, reports progress 1.0, and never invokes the wrapped core (the core
thunk is arbitrary, so the statement holds for every cancellation token and
threshold the core might capture). -/
theorem c2_lut_fast_path (core : Unit → CoreOut) (n : Nat) (hn : n ≤ 93) :
    (FibCalculator.Calculate core n).result = some (lookupSmall n) ∧
    ((FibCalculator.Calculate core n).result).isSome = true ∧
    (FibCalculator.Calculate core n).reports = [(1 : Rat)] ∧
    (FibCalculator.Calculate core n).coreCalled = false := by
  have h : n ≤ MaxFibUint64 := hn
  simp [FibCalculator.Calculate, if_pos h, reporterClamp]

/-- Witness for C2 at n = 50 with a core that would return an error if it
were ever called. -/
theorem c2_lut_fast_path_witness :
    (50 : Nat) ≤ 93 ∧
    ((FibCalculator.Calculate (fun _ => ⟨none, 0, false⟩) 50).result =
        some (lookupSmall 50) ∧
      ((FibCalculator.Calculate (fun _ => ⟨none, 0, false⟩) 50).result).isSome = true ∧
      (FibCalculator.Calculate (fun _ => ⟨none, 0, false⟩) 50).reports = [(1 : Rat)] ∧
      (FibCalculator.Calculate (fun _ => ⟨none, 0, false⟩) 50).coreCalled = false) :=
  ⟨by decide, c2_lut_fast_path (fun _ => ⟨none, 0, false⟩) 50 (by decide)⟩

/-- C3: with the cancellation token already triggered, for every `n > 93`
both engines return the cancellation error with a nil result after zero
completed loop iterations, and the facade propagates the error with no
result. -/
theorem c3_pre_cancelled (n : Nat) (hn : 93 < n) (useParallel : Bool)
    (threshold : Nat) (dF : FDState) (dM : MatState) :
    (OptimizedFastDoubling.CalculateCore true useParallel threshold n dF).result = none ∧
    (OptimizedFastDoubling.CalculateCore true useParallel threshold n dF).iters = 0 ∧
    (MatrixExponentiation.CalculateCore true useParallel threshold n dM).result = none ∧
    (MatrixExponentiation.CalculateCore true useParallel threshold n dM).iters = 0 ∧
    (FibCalculator.Calculate
      (fun _ => OptimizedFastDoubling.CalculateCore true useParallel threshold n dF)
      n).result = none ∧
    (FibCalculator.Calculate
      (fun _ => MatrixExponentiation.CalculateCore true useParallel threshold n dM)
      n).result = none := by
  have hfd := fastDoublingCore_cancelled useParallel threshold n dF (by omega)
  have hmx := matrixCore_cancelled useParallel threshold n dM (by omega)
  have hn93 : ¬ n ≤ MaxFibUint64 := by
    show ¬ n ≤ 93
    omega
  refine ⟨by rw [hfd], by rw [hfd], by rw [hmx], by rw [hmx], ?_, ?_⟩ <;>
    simp only [FibCalculator.Calculate, if_neg hn93, hfd, hmx, Option.isSome_none]

/-- Witness for C3 at n = 100. -/
theorem c3_pre_cancelled_witness :
    (93 : Nat) < 100 ∧
    ((OptimizedFastDoubling.CalculateCore true true 0 100 FDState.new).result = none ∧
      (OptimizedFastDoubling.CalculateCore true true 0 100 FDState.new).iters = 0 ∧
      (MatrixExponentiation.CalculateCore true true 0 100 MatState.new).result = none ∧
      (MatrixExponentiation.CalculateCore true true 0 100 MatState.new).iters = 0 ∧
      (FibCalculator.Calculate
        (fun _ => OptimizedFastDoubling.CalculateCore true true 0 100 FDState.new)
        100).result = none ∧
      (FibCalculator.Calculate
        (fun _ => MatrixExponentiation.CalculateCore true true 0 100 MatState.new)
        100).result = none) :=
  ⟨by decide, c3_pre_cancelled 100 (by decide) true 0 FDState.new MatState.new⟩

/-- C4: for every symmetric 2×2 matrix (entry `b` equal to entry `c`) with
non-negative entries, `squareSymmetricMatrix` computes exactly the true
matrix product M×M from the four products `a², b², d², b·(a+d)`; in the
exponentiation loop the power matrix starts as the symmetric Q (set by
`Reset`) and every loop iteration preserves its symmetry. -/
theorem c4_symmetric_squaring (M : GMatrix) (useParallel : Bool) (threshold : Nat)
    (hsym : M.b = M.c) (_hnonneg : 0 ≤ M.a ∧ 0 ≤ M.b ∧ 0 ≤ M.c ∧ 0 ≤ M.d) :
    (squareSymmetricMatrix M useParallel threshold).1 = matProdSpec M M ∧
    (∀ dirty : MatState, (MatState.Reset dirty).p = GMatrix.baseQ) ∧
    GMatrix.baseQ.b = GMatrix.baseQ.c ∧
    (∀ (st : MatState) (k numBits i : Nat), st.p.b = st.p.c →
      (matStep useParallel threshold k numBits i st).p.b =
        (matStep useParallel threshold k numBits i st).p.c) := by
  refine ⟨squareSymmetricMatrix_eq_matProdSpec M useParallel threshold hsym,
    fun _ => rfl, rfl, ?_⟩
  intro st k numBits i hsymp
  unfold matStep
  by_cases hl : i < numBits - 1
  · simp only [if_pos hl, matSqIter, squareSymmetricMatrix, sqProducts_eq]
  · simp only [if_neg hl]
    by_cases hb : (k >>> i) &&& 1 = 1
    · simp only [if_pos hb, matMulIter]
      exact hsymp
    · simp only [if_neg hb]
      exact hsymp

/-- Witness for C4 at M = Q. -/
theorem c4_symmetric_squaring_witness :
    (GMatrix.baseQ.b = GMatrix.baseQ.c ∧
      (0 ≤ GMatrix.baseQ.a ∧ 0 ≤ GMatrix.baseQ.b ∧ 0 ≤ GMatrix.baseQ.c ∧
        0 ≤ GMatrix.baseQ.d)) ∧
    ((squareSymmetricMatrix GMatrix.baseQ false 0).1 =
        matProdSpec GMatrix.baseQ GMatrix.baseQ ∧
      (∀ dirty : MatState, (MatState.Reset dirty).p = GMatrix.baseQ) ∧
      GMatrix.baseQ.b = GMatrix.baseQ.c ∧
      (∀ (st : MatState) (k numBits i : Nat), st.p.b = st.p.c →
        (matStep false 0 k numBits i st).p.b =
          (matStep false 0 k numBits i st).p.c)) :=
  ⟨⟨by decide, by decide⟩,
    c4_symmetric_squaring GMatrix.baseQ false 0 (by decide) (by decide)⟩

/-- C5: every lookup-table entry built by the `init` recurrence over uint64
arithmetic equals the exact Fibonacci number; `Lookup(93)` is
12200160415121876738; and `Calculate(94)` (one past the table) equals
`Lookup(93) + Lookup(92)`. -/
theorem c5_lut_boundary (n : Nat) (hn : n ≤ 93) :
    fibLookupTable n = (fibRef n : Int) ∧
    lookupSmall 93 = 12200160415121876738 ∧
    (∀ (useParallel : Bool) (threshold : Nat) (dirty : FDState),
      (FibCalculator.Calculate
        (fun _ => OptimizedFastDoubling.CalculateCore false useParallel threshold 94 dirty)
        94).result = some (lookupSmall 93 + lookupSmall 92)) := by
  refine ⟨by rw [fibRef_eq_fib]; exact fibLookupTable_correct n hn, by decide, ?_⟩
  intro useParallel threshold dirty
  have h94 : ¬ (94 : Nat) ≤ MaxFibUint64 := by decide
  have hcore := fastDoublingCore_fib useParallel threshold 94 dirty (by decide)
  simp only [FibCalculator.Calculate, if_neg h94, hcore, Option.isSome_some]
  have h93 : lookupSmall 93 = (Nat.fib 93 : Int) := fibLookupTable_correct 93 (by decide)
  have h92 : lookupSmall 92 = (Nat.fib 92 : Int) := fibLookupTable_correct 92 (by decide)
  rw [h93, h92, show (94 : Nat) = 92 + 2 from rfl, fib_add_two_cast 92]
  rw [Int.add_comm]

/-- Witness for C5 at n = 93. -/
theorem c5_lut_boundary_witness :
    (93 : Nat) ≤ 93 ∧
    (fibLookupTable 93 = (fibRef 93 : Int) ∧
      lookupSmall 93 = 12200160415121876738 ∧
      (∀ (useParallel : Bool) (threshold : Nat) (dirty : FDState),
        (FibCalculator.Calculate
          (fun _ => OptimizedFastDoubling.CalculateCore false useParallel threshold 94 dirty)
          94).result = some (lookupSmall 93 + lookupSmall 92))) :=
  ⟨by decide, c5_lut_boundary 93 (by decide)⟩

theorem read_alloc_self (st : Store) (v : Int) :
    (st.alloc v).2.read (st.alloc v).1 = v := by
  show (st.mem ++ [v]).getD st.mem.length 0 = v
  rw [List.getD_eq_getElem?_getD, List.getElem?_concat_length]
  rfl

theorem read_write_ne (st : Store) (a b : Nat) (v : Int) (h : a ≠ b) :
    (st.write a v).read b = st.read b := by
  show (st.mem.set a v).getD b 0 = st.mem.getD b 0
  rw [List.getD_eq_getElem?_getD, List.getD_eq_getElem?_getD, List.getElem?_set_ne h]

theorem read_alloc_old (st : Store) (v : Int) (b : Nat) (h : b < st.mem.length) :
    (st.alloc v).2.read b = st.read b := by
  show (st.mem ++ [v]).getD b 0 = st.mem.getD b 0
  rw [List.getD_eq_getElem?_getD, List.getD_eq_getElem?_getD, List.getElem?_append_left h]

/-- C7: the cell handed out by `lookupSmall` is freshly allocated, so writing
through it and then looking the index up again still yields the original
table value, and the table cell itself is untouched by the write. -/
theorem c7_lookup_no_alias (st0 : Store) (n : Nat) (v : Int)
    (hn : n ≤ 93) (hlen : MaxFibUint64 + 1 ≤ st0.mem.length) :
    ((lookupSmallAlloc (Store.write (lookupSmallAlloc st0 n).2
          (lookupSmallAlloc st0 n).1 v) n).2).read
        ((lookupSmallAlloc (Store.write (lookupSmallAlloc st0 n).2
          (lookupSmallAlloc st0 n).1 v) n).1) = st0.read (tableAddr n) ∧
    (Store.write (lookupSmallAlloc st0 n).2 (lookupSmallAlloc st0 n).1 v).read
        (tableAddr n) = st0.read (tableAddr n) := by
  have hlen94 : 94 ≤ st0.mem.length := hlen
  have hlt : tableAddr n < st0.mem.length := by
    show n < st0.mem.length
    omega
  have h2 : (Store.write (lookupSmallAlloc st0 n).2 (lookupSmallAlloc st0 n).1 v).read
      (tableAddr n) = st0.read (tableAddr n) := by
    have hw := read_write_ne (lookupSmallAlloc st0 n).2 (lookupSmallAlloc st0 n).1
      (tableAddr n) v (by show st0.mem.length ≠ n; omega)
    rw [hw]
    exact read_alloc_old st0 _ (tableAddr n) hlt
  exact ⟨(read_alloc_self _ _).trans h2, h2⟩

/-- Witness for C7: the initialized table store, index 10, overwriting the
returned cell with 999. -/
theorem c7_lookup_no_alias_witness :
    ((10 : Nat) ≤ 93 ∧ MaxFibUint64 + 1 ≤ initialStore.mem.length) ∧
    (((lookupSmallAlloc (Store.write (lookupSmallAlloc initialStore 10).2
          (lookupSmallAlloc initialStore 10).1 999) 10).2).read
        ((lookupSmallAlloc (Store.write (lookupSmallAlloc initialStore 10).2
          (lookupSmallAlloc initialStore 10).1 999) 10).1) =
        initialStore.read (tableAddr 10) ∧
      (Store.write (lookupSmallAlloc initialStore 10).2
          (lookupSmallAlloc initialStore 10).1 999).read (tableAddr 10) =
        initialStore.read (tableAddr 10)) :=
  ⟨⟨by decide, by simp [initialStore, MaxFibUint64]⟩,
    c7_lookup_no_alias initialStore 10 999 (by decide)
      (by simp [initialStore, MaxFibUint64])⟩

/-- C8 counterexample: at n = 0 the Fast-Doubling core does acquire pooled
state, contradicting the claim that n = 0, 1, 2 are answered by a direct
constant return that never touches the pool. -/
theorem c8_counterexample :
    ¬ ((OptimizedFastDoubling.CalculateCore false false 0 0 FDState.new).poolAcquired
        = false) := by
  decide

/-- C8 amended: for n = 0, 1, 2 the Fast-Doubling core does return 0, 1, 1
respectively, but it computes them through the main loop over pool-acquired
state — the pool is acquired (and released) for every input, including
n ≤ 2. -/
theorem c8_amended_small_inputs (useParallel : Bool) (threshold : Nat) (dirty : FDState) :
    (OptimizedFastDoubling.CalculateCore false useParallel threshold 0 dirty).result =
      some 0 ∧
    (OptimizedFastDoubling.CalculateCore false useParallel threshold 1 dirty).result =
      some 1 ∧
    (OptimizedFastDoubling.CalculateCore false useParallel threshold 2 dirty).result =
      some 1 ∧
    (∀ n : Nat,
      (OptimizedFastDoubling.CalculateCore false useParallel threshold n dirty).poolAcquired
        = true) := by
  have h0 := fastDoublingCore_fib useParallel threshold 0 dirty (by decide)
  have h1 := fastDoublingCore_fib useParallel threshold 1 dirty (by decide)
  have h2 := fastDoublingCore_fib useParallel threshold 2 dirty (by decide)
  refine ⟨?_, ?_, ?_, fun n => rfl⟩
  · rw [h0]
    simp [Nat.fib_zero]
  · rw [h1]
    simp [Nat.fib_one]
  · rw [h2]
    simp [Nat.fib_two]

/-- C9 counterexample: the state returned by `acquireState` is not fully
deterministic — acquiring a previously mutated-and-released object and
acquiring a fresh one yield different states (the scratch temporary `t1`
still holds the prior value 5). -/
theorem c9_counterexample :
    acquireState (some ⟨5, 5, 5, 5, 5, 5⟩) ≠ acquireState none ∧
    (acquireState (some ⟨5, 5, 5, 5, 5, 5⟩)).t1 = 5 := by
  decide

/-- C9 amended: every acquired state is reset to the documented baseline on
the fields the algorithms rely on — `f_k = 0`, `f_k1 = 1` for the
Fast-Doubling state, `result = Identity` and `power = Q` for the matrix
state — regardless of the prior contents of the pooled object; the scratch
temporaries are deliberately not reset. -/
theorem c9_amended_reset_baseline (x : Option FDState) (y : Option MatState) :
    (acquireState x).f_k = 0 ∧ (acquireState x).f_k1 = 1 ∧
    (acquireMatrixState y).res = GMatrix.identityM ∧
    (acquireMatrixState y).p = GMatrix.baseQ := by
  cases x <;> cases y <;> exact ⟨rfl, rfl, rfl, rfl⟩

/-- C10: with the cancellation token already triggered and n ≤ 93, the
facade still answers from the lookup table with a nil error — the fast path
never consults the token. -/
theorem c10_cancelled_lut_path (n : Nat) (hn : n ≤ 93) (useParallel useParallel2 : Bool)
    (threshold threshold2 : Nat) (dF : FDState) (dM : MatState) :
    (FibCalculator.Calculate
      (fun _ => OptimizedFastDoubling.CalculateCore true useParallel threshold n dF)
      n).result = some (fibRef n : Int) ∧
    (FibCalculator.Calculate
      (fun _ => MatrixExponentiation.CalculateCore true useParallel2 threshold2 n dM)
      n).result = some (fibRef n : Int) := by
  have h : n ≤ MaxFibUint64 := hn
  have hlut : lookupSmall n = (fibRef n : Int) := by
    rw [fibRef_eq_fib]
    exact fibLookupTable_correct n hn
  constructor <;>
    simp only [FibCalculator.Calculate, if_pos h, hlut]

/-- Witness for C10 at n = 50. -/
theorem c10_cancelled_lut_path_witness :
    (50 : Nat) ≤ 93 ∧
    ((FibCalculator.Calculate
        (fun _ => OptimizedFastDoubling.CalculateCore true true 0 50 FDState.new)
        50).result = some (fibRef 50 : Int) ∧
      (FibCalculator.Calculate
        (fun _ => MatrixExponentiation.CalculateCore true true 0 50 MatState.new)
        50).result = some (fibRef 50 : Int)) :=
  ⟨by decide, c10_cancelled_lut_path 50 (by decide) true true 0 0 FDState.new MatState.new⟩
